import Mathlib

/-!
Shallow embedding of the MOFA2 variational-inference core
(`mofapy2/core/BayesNet.py` and `biofam/core/nodes/Tau_nodes.py`),
together with theorems settling the specification claims.

Python floats are idealised as exact rationals (`ℚ`); the one fractional
power (the stochastic step size) is modelled over `ℝ`; random draws
(`s.random.choice`) are modelled as explicitly passed choice oracles;
fatal `exit()` and failed `assert` paths are modelled with `Option`/`Bool`
results.
-/

namespace MOFA2

/-! ### Convergence assessment: `BayesNet.assess_convergence` -/

/-- Threshold table of `assess_convergence` (`fast=0.00001`,
`medium=0.000001`, `slow=0.0000001`); `none` models the fatal
`exit()` taken on an unrecognised mode. -/
def convergenceThreshold : String → Option ℚ
  | "fast" => some (1 / 100000)
  | "medium" => some (1 / 1000000)
  | "slow" => some (1 / 10000000)
  | _ => none

/-- The quantity `100*abs(delta_elbo/first_elbo)` compared against the
threshold in `assess_convergence`. -/
def relDelta (delta first : ℚ) : ℚ := 100 * |delta / first|

/-- One call of `assess_convergence` at a fixed threshold: the updated
`convergence_token` together with the `converged` flag
(`token += 1; if token==5: converged = True` on a sub-threshold check,
`token = 1` otherwise). -/
def assessStep (thr first delta : ℚ) (token : ℕ) : ℕ × Bool :=
  if relDelta delta first < thr then (token + 1, token + 1 == 5)
  else (1, false)

/-- `BayesNet.assess_convergence` itself, dispatching on the configured
`convergence_mode`. -/
def assess_convergence (mode : String) (delta first : ℚ) (token : ℕ) :
    Option (ℕ × Bool) :=
  (convergenceThreshold mode).map (fun thr => assessStep thr first delta token)

/-- Folding `assess_convergence` over a sequence of checkpoint deltas, the
way the training loop does (the loop breaks on convergence).  Returns the
final token together with the 1-based index of the checkpoint at which
convergence was declared, if any. -/
def convRun (thr first : ℚ) : List ℚ → ℕ → ℕ × Option ℕ
  | [], token => (token, none)
  | d :: ds, token =>
      let st := assessStep thr first d token
      if st.2 then (st.1, some 1)
      else
        let r := convRun thr first ds st.1
        (r.1, r.2.map (· + 1))

/-! Helper lemmas about `convRun`. -/

lemma assessStep_sub (thr first delta : ℚ) (token : ℕ)
    (h : relDelta delta first < thr) :
    assessStep thr first delta token = (token + 1, token + 1 == 5) := by
  simp [assessStep, h]

lemma assessStep_above (thr first delta : ℚ) (token : ℕ)
    (h : ¬ relDelta delta first < thr) :
    assessStep thr first delta token = (1, false) := by
  simp [assessStep, h]

lemma convRun_replicate_sub (thr first d : ℚ) (h : relDelta d first < thr) :
    ∀ (k token : ℕ), token ≤ 4 →
      (convRun thr first (List.replicate k d) token).2 =
        (if 5 - token ≤ k then some (5 - token) else none) := by
  intro k
  induction k with
  | zero =>
      intro token htok
      have h5 : ¬ 5 - token ≤ 0 := by omega
      simp [convRun, h5]
  | succ k ih =>
      intro token htok
      rw [List.replicate_succ]
      by_cases h4 : token = 4
      · subst h4
        have hconv : (assessStep thr first d 4).2 = true := by
          simp [assessStep, h]
        simp only [convRun]
        rw [assessStep_sub thr first d 4 h]
        norm_num
      · have htok4 : token + 1 ≤ 4 := by omega
        simp only [convRun]
        rw [assessStep_sub thr first d token h]
        have hne : ¬ ((token + 1 == 5) = true) := by
          simp; omega
        simp only [hne, if_false]
        rw [ih (token + 1) htok4]
        by_cases hk : 5 - (token + 1) ≤ k
        · have hk2 : 5 - token ≤ k + 1 := by omega
          have : 5 - (token + 1) + 1 = 5 - token := by omega
          simp [hk, hk2, this]
          omega
        · have hk2 : ¬ 5 - token ≤ k + 1 := by omega
          simp [hk, hk2]
          omega

lemma convRun_cons_above (thr first d : ℚ) (ds : List ℚ) (token : ℕ)
    (h : ¬ relDelta d first < thr) :
    convRun thr first (d :: ds) token =
      ((convRun thr first ds 1).1, (convRun thr first ds 1).2.map (· + 1)) := by
  simp only [convRun]
  rw [assessStep_above thr first d token h]
  simp

lemma convRun_append_none (thr first : ℚ) :
    ∀ (pre rest : List ℚ) (token : ℕ),
      (convRun thr first pre token).2 = none →
      (convRun thr first (pre ++ rest) token).2 =
        ((convRun thr first rest (convRun thr first pre token).1).2).map
          (· + pre.length) := by
  intro pre
  induction pre with
  | nil =>
      intro rest token _
      simp [convRun]
  | cons d ds ih =>
      intro rest token hnone
      simp only [List.cons_append, convRun] at hnone ⊢
      cases hst : (assessStep thr first d token).2 with
      | true => rw [hst] at hnone; simp at hnone
      | false =>
          simp only [hst, Bool.false_eq_true, if_false] at hnone ⊢
          simp only [Option.map_eq_none'] at hnone
          simp only [List.append_eq]
          rw [ih rest (assessStep thr first d token).1 hnone]
          simp only [Option.map_map]
          congr 1

lemma relDelta_one_hundred : relDelta 1 100 = 1 := by
  rw [relDelta, abs_of_nonneg] <;> norm_num

/-- Claim C2, counterexample.  With convergence mode "medium" (threshold
1e-6 percent), baseline ELBO 100, and every checkpoint delta equal to 0
(so relDelta = 0 is sub-threshold), the loop declares convergence already
at the 4th consecutive sub-threshold checkpoint: the token starts at 1 and
reaches 5 after only four increments.  This refutes "convergence is
declared exactly on the 5th consecutive sub-threshold checkpoint". -/
theorem convergence_declared_on_fourth_checkpoint :
    convergenceThreshold "medium" = some (1 / 1000000)
    ∧ relDelta 0 100 < 1 / 1000000
    ∧ (convRun (1 / 1000000) 100 (List.replicate 4 0) 1).2 = some 4 := by
  refine ⟨rfl, by norm_num [relDelta], ?_⟩
  rw [convRun_replicate_sub (1 / 1000000) 100 0 (by norm_num [relDelta]) 4 1
    (by norm_num)]
  norm_num

/-- Claim C2, amended.  The convergence test computes
relDelta = 100*|delta/total(0)| and compares it with the threshold of the
configured mode; the counter starts at 1, is incremented on every
sub-threshold checkpoint and reset to 1 on any checkpoint at or above
threshold; convergence is declared exactly on the 4th (not 5th)
consecutive sub-threshold checkpoint, since the counter must reach 5; a
single above-threshold check anywhere resets the counter and makes the
remaining run behave like a fresh one. -/
theorem assess_convergence_counter_behaviour (mode : String)
    (thr first dSub dAbove : ℚ) (k : ℕ)
    (hmode : convergenceThreshold mode = some thr)
    (hsub : relDelta dSub first < thr)
    (habove : ¬ relDelta dAbove first < thr) :
    (∀ token, assess_convergence mode dSub first token
        = some (token + 1, token + 1 == 5))
    ∧ (∀ token, assess_convergence mode dAbove first token = some (1, false))
    ∧ (convRun thr first (List.replicate k dSub) 1).2
        = (if 4 ≤ k then some 4 else none)
    ∧ (convRun thr first (dAbove :: List.replicate k dSub) 1).2
        = (if 4 ≤ k then some 5 else none)
    ∧ (∀ pre rest, (convRun thr first pre 1).2 = none →
        (convRun thr first (pre ++ dAbove :: rest) 1).2
          = ((convRun thr first rest 1).2).map (· + (pre.length + 1))) := by
  have hrep : (convRun thr first (List.replicate k dSub) 1).2
      = (if 4 ≤ k then some 4 else none) := by
    rw [convRun_replicate_sub thr first dSub hsub k 1 (by norm_num)]
  refine ⟨?_, ?_, hrep, ?_, ?_⟩
  · intro token
    simp [assess_convergence, hmode, assessStep_sub thr first dSub token hsub]
  · intro token
    simp [assess_convergence, hmode, assessStep_above thr first dAbove token habove]
  · rw [convRun_cons_above thr first dAbove (List.replicate k dSub) 1 habove]
    rw [hrep]
    by_cases h4 : 4 ≤ k <;> simp [h4]
  · intro pre rest hpre
    rw [convRun_append_none thr first pre (dAbove :: rest) 1 hpre]
    rw [convRun_cons_above thr first dAbove rest (convRun thr first pre 1).1 habove]
    simp only [Option.map_map]
    congr 1
    funext x
    simp [Function.comp]
    omega

/-- Witness for the amended C2 theorem at a concrete instance: mode
"medium", baseline 100, sub-threshold delta 0, above-threshold delta 1,
six sub-threshold checkpoints. -/
theorem assess_convergence_counter_behaviour_witness :
    (convergenceThreshold "medium" = some (1 / 1000000)
      ∧ relDelta 0 100 < 1 / 1000000
      ∧ ¬ relDelta 1 100 < 1 / 1000000)
    ∧ ((∀ token, assess_convergence "medium" 0 100 token
          = some (token + 1, token + 1 == 5))
      ∧ (∀ token, assess_convergence "medium" 1 100 token = some (1, false))
      ∧ (convRun (1 / 1000000) 100 (List.replicate 6 0) 1).2
          = (if 4 ≤ 6 then some 4 else none)
      ∧ (convRun (1 / 1000000) 100 (1 :: List.replicate 6 0) 1).2
          = (if 4 ≤ 6 then some 5 else none)
      ∧ (∀ pre rest, (convRun (1 / 1000000) 100 pre 1).2 = none →
          (convRun (1 / 1000000) 100 (pre ++ 1 :: rest) 1).2
            = ((convRun (1 / 1000000) 100 rest 1).2).map (· + (pre.length + 1)))) :=
  ⟨⟨rfl, by norm_num [relDelta], by rw [relDelta_one_hundred]; norm_num⟩,
    assess_convergence_counter_behaviour "medium" (1 / 1000000) 100 0 1 6 rfl
      (by norm_num [relDelta]) (by rw [relDelta_one_hundred]; norm_num)⟩

/-! ### ELBO checkpoints and convergence gating in `BayesNet.iterate` -/

/-- The ELBO-checkpoint guard of the training loop:
`(i >= start_elbo) and ((i - start_elbo) % elbofreq == 0)`. -/
def isElboIteration (start_elbo elbofreq i : ℕ) : Bool :=
  decide (start_elbo ≤ i) && ((i - start_elbo) % elbofreq == 0)

/-- The guard under which `assess_convergence` is called inside the
checkpoint branch: `i > start_elbo and not forceiter`. -/
def assessesAt (start_elbo elbofreq : ℕ) (forceiter : Bool) (i : ℕ) : Bool :=
  isElboIteration start_elbo elbofreq i && decide (start_elbo < i) && !forceiter

/-- The convergence-relevant state of the training loop after iterations
`1..i`: the convergence token (initially 1) and the converged flag,
threaded exactly as in `BayesNet.iterate` — the token is updated via
`assess_convergence` only at assessed checkpoints, and the loop breaks
once converged.  `deltas j` is the delta_elbo at iteration `j`, `first`
the baseline total ELBO. -/
def iterState (se ef : ℕ) (fi : Bool) (thr first : ℚ) (deltas : ℕ → ℚ) :
    ℕ → ℕ × Bool
  | 0 => (1, false)
  | i + 1 =>
      let st := iterState se ef fi thr first deltas i
      if st.2 then st
      else if assessesAt se ef fi (i + 1) then
        assessStep thr first (deltas (i + 1)) st.1
      else st

/-- Claim C10: convergence is assessed only at checkpoints with iteration
index strictly greater than start_elbo.  The first ELBO checkpoint
(i = start_elbo) never updates the convergence counter nor declares
convergence, even with forceiter = false; the earliest assessed
checkpoint is the second one (index at least start_elbo + elbofreq), so
before it the loop state is still the initial (1, false). -/
theorem first_elbo_checkpoint_never_converges
    (se ef : ℕ) (fi : Bool) (thr first : ℚ) (deltas : ℕ → ℚ)
    (hef : 1 ≤ ef) :
    1 ≤ ef
    ∧ assessesAt se ef false se = false
    ∧ (∀ i, assessesAt se ef fi i = true → se + ef ≤ i)
    ∧ (∀ i, i < se + ef → iterState se ef fi thr first deltas i = (1, false)) := by
  have hkey : ∀ i, assessesAt se ef fi i = true → se + ef ≤ i := by
    intro i hi
    simp only [assessesAt, isElboIteration, Bool.and_eq_true, decide_eq_true_eq,
      beq_iff_eq, Bool.not_eq_eq_eq_not] at hi
    obtain ⟨⟨⟨hle, hmod⟩, hlt⟩, _⟩ := hi
    have hdvd : ef ∣ (i - se) := Nat.dvd_of_mod_eq_zero hmod
    have hpos : 0 < i - se := by omega
    have := Nat.le_of_dvd hpos hdvd
    omega
  refine ⟨hef, ?_, hkey, ?_⟩
  · simp [assessesAt]
  · intro i
    induction i with
    | zero => intro _; rfl
    | succ i ih =>
        intro hi
        have hprev : iterState se ef fi thr first deltas i = (1, false) :=
          ih (by omega)
        have hno : assessesAt se ef fi (i + 1) = false := by
          cases hA : assessesAt se ef fi (i + 1) with
          | false => rfl
          | true => exact absurd (hkey (i + 1) hA) (by omega)
        simp only [iterState, hprev, hno]
        rfl

/-- Witness for the C10 theorem: start_elbo = 3, elbofreq = 2,
forceiter = false, threshold 1, baseline 100, all deltas 0. -/
theorem first_elbo_checkpoint_never_converges_witness :
    (1 ≤ 2)
    ∧ (1 ≤ 2
      ∧ assessesAt 3 2 false 3 = false
      ∧ (∀ i, assessesAt 3 2 false i = true → 3 + 2 ≤ i)
      ∧ (∀ i, i < 3 + 2 →
          iterState 3 2 false 1 100 (fun _ => 0) i = (1, false))) :=
  ⟨by norm_num,
    first_elbo_checkpoint_never_converges 3 2 false 1 100 (fun _ => 0)
      (by norm_num)⟩

/-! ### ELBO ledger: `BayesNet.calculateELBO` -/

/-- Write one entry of the pandas Series holding the ELBO record. -/
def seriesUpdate (s : String → ℚ) (key : String) (v : ℚ) : String → ℚ :=
  fun n => if n = key then v else s n

/-- The loop body of `calculateELBO`:
`elbo[node] = float(...); elbo["total"] += elbo[node]`. -/
def elboStep (contrib : String → ℚ) (s : String → ℚ) (node : String) :
    String → ℚ :=
  let s1 := seriesUpdate s node (contrib node)
  seriesUpdate s1 "total" (s1 "total" + contrib node)

/-- `BayesNet.calculateELBO`: a zero-initialised series over the node
names plus "total", filled node by node while accumulating the total.
`contrib n` is the value of node n's own `calculateELBO()`. -/
def calculateELBO (contrib : String → ℚ) (nodes : List String) : String → ℚ :=
  nodes.foldl (elboStep contrib) (fun _ => 0)

lemma elboStep_at_total (contrib : String → ℚ) (s : String → ℚ)
    (node : String) (h : node ≠ "total") :
    elboStep contrib s node "total" = s "total" + contrib node := by
  simp [elboStep, seriesUpdate, Ne.symm h]

lemma elboStep_at_other (contrib : String → ℚ) (s : String → ℚ)
    (node n : String) (hn : n ≠ node) (ht : n ≠ "total") :
    elboStep contrib s node n = s n := by
  simp [elboStep, seriesUpdate, hn, ht]

lemma elboStep_at_self (contrib : String → ℚ) (s : String → ℚ)
    (node : String) (h : node ≠ "total") :
    elboStep contrib s node node = contrib node := by
  simp [elboStep, seriesUpdate, h]

lemma elboFold_total (contrib : String → ℚ) :
    ∀ (l : List String) (s : String → ℚ), "total" ∉ l →
      (l.foldl (elboStep contrib) s) "total" = s "total" + (l.map contrib).sum := by
  intro l
  induction l with
  | nil => intro s _; simp
  | cons a l ih =>
      intro s hmem
      have ha : a ≠ "total" := fun h => hmem (h ▸ List.mem_cons_self a l)
      have hl : "total" ∉ l := fun h => hmem (List.mem_cons_of_mem a h)
      simp only [List.foldl_cons, List.map_cons, List.sum_cons]
      rw [ih _ hl, elboStep_at_total contrib s a ha]
      ring

lemma elboFold_not_mem (contrib : String → ℚ) :
    ∀ (l : List String) (s : String → ℚ) (n : String), n ∉ l → n ≠ "total" →
      (l.foldl (elboStep contrib) s) n = s n := by
  intro l
  induction l with
  | nil => intro s n _ _; rfl
  | cons a l ih =>
      intro s n hmem ht
      have hna : n ≠ a := fun h => hmem (h ▸ List.mem_cons_self a l)
      have hnl : n ∉ l := fun h => hmem (List.mem_cons_of_mem a h)
      simp only [List.foldl_cons]
      rw [ih _ n hnl ht, elboStep_at_other contrib s a n hna ht]

lemma elboFold_mem (contrib : String → ℚ) :
    ∀ (l : List String) (s : String → ℚ) (n : String), n ∈ l → n ≠ "total" →
      (l.foldl (elboStep contrib) s) n = contrib n := by
  intro l
  induction l with
  | nil => intro s n h _; exact absurd h (List.not_mem_nil n)
  | cons a l ih =>
      intro s n hmem ht
      simp only [List.foldl_cons]
      by_cases hl : n ∈ l
      · exact ih _ n hl ht
      · have hna : n = a := by
          rcases List.mem_cons.mp hmem with h | h
          · exact h
          · exact absurd h hl
        subst hna
        rw [elboFold_not_mem contrib l _ n hl ht,
          elboStep_at_self contrib s n ht]

/-- Claim C1: in every record produced by `calculateELBO`, the "total"
field equals the sum of the per-variational-node entries of that same
record (exactly, hence within any floating tolerance), and each per-node
entry is that node's own contribution. -/
theorem calculateELBO_total_eq_sum (contrib : String → ℚ)
    (nodes : List String) (htot : "total" ∉ nodes) :
    (calculateELBO contrib nodes) "total"
        = (nodes.map (fun n => calculateELBO contrib nodes n)).sum
    ∧ ∀ n ∈ nodes, calculateELBO contrib nodes n = contrib n := by
  have hmem : ∀ n ∈ nodes, calculateELBO contrib nodes n = contrib n := by
    intro n hn
    have hne : n ≠ "total" := fun h => htot (h ▸ hn)
    exact elboFold_mem contrib nodes _ n hn hne
  refine ⟨?_, hmem⟩
  have h1 : (calculateELBO contrib nodes) "total" = (nodes.map contrib).sum := by
    rw [calculateELBO, elboFold_total contrib nodes _ htot]
    ring
  rw [h1]
  congr 1
  exact (List.map_congr_left (fun n hn => (hmem n hn).symm))

/-- Witness for the C1 theorem: a two-node ledger. -/
theorem calculateELBO_total_eq_sum_witness :
    ("total" ∉ (["Tau", "Z"] : List String))
    ∧ ((calculateELBO (fun n => if n = "Tau" then 3 else -7) ["Tau", "Z"]) "total"
        = ((["Tau", "Z"] : List String).map
            (fun n => calculateELBO (fun n => if n = "Tau" then 3 else -7)
              ["Tau", "Z"] n)).sum
      ∧ ∀ n ∈ (["Tau", "Z"] : List String),
          calculateELBO (fun n => if n = "Tau" then 3 else -7) ["Tau", "Z"] n
            = (if n = "Tau" then 3 else -7)) :=
  ⟨by decide,
    calculateELBO_total_eq_sum (fun n => if n = "Tau" then 3 else -7)
      ["Tau", "Z"] (by decide)⟩

/-! ### Training options: `BayesNet.setTrainOptions` -/

/-- The keys `setTrainOptions` actually asserts, in assertion order.
`elbofreq`, `drop` and `stochastic` are not among them. -/
def checkedTrainKeys : List String :=
  ["maxiter", "start_drop", "freq_drop", "verbose", "quiet", "tolerance",
   "convergence_mode", "forceiter", "schedule", "start_sparsity", "gpu_mode",
   "start_elbo"]

/-- `BayesNet.setTrainOptions`: the sequence of
`assert "key" in train_opts` sanity checks over the keys of the options
dictionary; `true` means every assertion passed and the options were
stored, `false` models the AssertionError abort. -/
def setTrainOptions (keys : List String) : Bool :=
  checkedTrainKeys.all (fun k => keys.contains k)

/-- Required-key list as the spec words it (refinement reference written
from the spec, to be compared with `checkedTrainKeys` from the source). -/
def specRequiredKeys : List String :=
  ["maxiter", "start_drop", "freq_drop", "verbose", "quiet", "tolerance",
   "convergence_mode", "forceiter", "schedule", "start_sparsity", "gpu_mode",
   "start_elbo", "elbofreq", "drop", "stochastic"]

/-- Claim C9, counterexample: an options dictionary holding exactly the
twelve keys the code asserts is missing the spec-listed keys "elbofreq",
"drop" and "stochastic", yet `setTrainOptions` accepts it instead of
failing. -/
theorem setTrainOptions_accepts_missing_spec_keys :
    setTrainOptions checkedTrainKeys = true
    ∧ ("elbofreq" ∈ specRequiredKeys ∧ "elbofreq" ∉ checkedTrainKeys)
    ∧ ("drop" ∈ specRequiredKeys ∧ "drop" ∉ checkedTrainKeys)
    ∧ ("stochastic" ∈ specRequiredKeys ∧ "stochastic" ∉ checkedTrainKeys) := by
  refine ⟨by decide, ⟨by decide, by decide⟩, ⟨by decide, by decide⟩,
    ⟨by decide, by decide⟩⟩

/-- Claim C9, amended: setting the training options fails exactly when one
of the twelve asserted keys (maxiter, start_drop, freq_drop, verbose,
quiet, tolerance, convergence_mode, forceiter, schedule, start_sparsity,
gpu_mode, start_elbo) is absent; the remaining spec-listed keys elbofreq,
drop and stochastic are not validated at option-setting time. -/
theorem setTrainOptions_checks_exactly_twelve (keys : List String) :
    (setTrainOptions keys = true ↔ ∀ k ∈ checkedTrainKeys, k ∈ keys)
    ∧ checkedTrainKeys ⊆ specRequiredKeys
    ∧ "elbofreq" ∉ checkedTrainKeys
    ∧ "drop" ∉ checkedTrainKeys
    ∧ "stochastic" ∉ checkedTrainKeys := by
  refine ⟨?_, by decide, by decide, by decide, by decide⟩
  simp [setTrainOptions, List.all_eq_true]

/-- Witness for the amended C9 theorem: option keys = the full spec list
(which contains all twelve checked keys, so the checks pass). -/
theorem setTrainOptions_checks_exactly_twelve_witness :
    (setTrainOptions specRequiredKeys = true
        ↔ ∀ k ∈ checkedTrainKeys, k ∈ specRequiredKeys)
    ∧ checkedTrainKeys ⊆ specRequiredKeys
    ∧ "elbofreq" ∉ checkedTrainKeys
    ∧ "drop" ∉ checkedTrainKeys
    ∧ "stochastic" ∉ checkedTrainKeys :=
  setTrainOptions_checks_exactly_twelve specRequiredKeys


/-! ### Factor pruning: `BayesNet.removeInactiveFactors` -/

/-- Per-group inactive-factor set,
`s.where((r2[g] > min_r2).sum(axis=0) == 0)[0]`: the factors whose
explained variance exceeds the threshold in no view of group `g`. -/
def groupInactive (G M K : ℕ) (r2 : Fin G → Fin M → Fin K → ℚ)
    (min_r2 : ℚ) (g : Fin G) : Finset (Fin K) :=
  Finset.univ.filter
    (fun k => (Finset.univ.filter (fun m => min_r2 < r2 g m k)).card = 0)

/-- `set.intersection(*map(set, tmp))`: the factors inactive in every
group simultaneously. -/
def dropCandidates (G M K : ℕ) (r2 : Fin G → Fin M → Fin K → ℚ)
    (min_r2 : ℚ) : Finset (Fin K) :=
  Finset.univ.filter (fun k => ∀ g, k ∈ groupInactive G M K r2 min_r2 g)

/-- Modelled from the spec: `removeFactors(indices)` of an individual node
"drops the factor-indexed entries named by indices from every parameter
and cached expectation array owned by the node"; the concrete node
classes are outside the excerpted source.  One factor-indexed array is
modelled as a list of per-factor values. -/
def removeFactors (idxs : List ℕ) (xs : List ℚ) : List ℚ :=
  (xs.enum.filter (fun p => decide (p.1 ∉ idxs))).map Prod.snd

/-- Result of one pruning step: the dropped indices, the node registry
after `removeFactors`, the new factor count, and the fatal-exit flag. -/
structure PruneResult where
  dropped : List ℕ
  nodes2 : List (List ℚ)
  newK : ℕ
  fatal : Bool

/-- `BayesNet.removeInactiveFactors` with the `min_r2` criterion active:
compute the candidate set; when it is non-empty draw a single factor from
it through the random oracle `pick` (modelling `s.random.choice`); apply
`removeFactors` with the same index list to every registered node;
decrement `dim['K']` by the number dropped; flag the fatal `exit()` taken
when K reaches 0. -/
def removeInactiveFactors (G M K : ℕ) (r2 : Fin G → Fin M → Fin K → ℚ)
    (min_r2 : ℚ) (pick : Finset (Fin K) → Fin K)
    (nodes : List (List ℚ)) : PruneResult :=
  let cand := dropCandidates G M K r2 min_r2
  let dropL : List ℕ := if cand.card = 0 then [] else [(pick cand).val]
  let nodes2 :=
    if dropL.length = 0 then nodes else nodes.map (removeFactors dropL)
  { dropped := dropL
    nodes2 := nodes2
    newK := K - dropL.length
    fatal := K - dropL.length == 0 }

lemma removeFactors_nil_idxs (xs : List ℚ) : removeFactors [] xs = xs := by
  simp [removeFactors, List.enum_map_snd]

lemma enumFrom_filter_ne_length (j : ℕ) :
    ∀ (xs : List ℚ) (n : ℕ),
      ((List.enumFrom n xs).filter (fun p => decide (p.1 ∉ [j]))).length =
        (if n ≤ j ∧ j < n + xs.length then xs.length - 1 else xs.length) := by
  intro xs
  induction xs with
  | nil =>
      intro n
      have h0 : ¬ (n ≤ j ∧ j < n + 0) := by omega
      simp [h0]
  | cons x xs ih =>
      intro n
      rw [List.enumFrom_cons]
      by_cases hj : n = j
      · subst hj
        rw [List.filter_cons_of_neg (by simp)]
        rw [ih (n + 1)]
        simp only [List.length_cons]
        split_ifs <;> omega
      · rw [List.filter_cons_of_pos (by simpa using hj)]
        rw [List.length_cons, ih (n + 1)]
        simp only [List.length_cons]
        split_ifs <;> omega

lemma removeFactors_single_length (j : ℕ) (xs : List ℚ) (hj : j < xs.length) :
    (removeFactors [j] xs).length = xs.length - 1 := by
  have h := enumFrom_filter_ne_length j xs 0
  have hin : 0 ≤ j ∧ j < 0 + xs.length := by omega
  rw [if_pos hin] at h
  simpa [removeFactors, List.enum] using h

lemma mem_dropCandidates_iff (G M K : ℕ) (r2 : Fin G → Fin M → Fin K → ℚ)
    (min_r2 : ℚ) (k : Fin K) :
    k ∈ dropCandidates G M K r2 min_r2 ↔ ∀ g m, r2 g m k ≤ min_r2 := by
  constructor
  · intro hk g m
    have hall := (Finset.mem_filter.mp hk).2
    have hg := (Finset.mem_filter.mp (hall g)).2
    rw [Finset.card_eq_zero, Finset.filter_eq_empty_iff] at hg
    exact le_of_not_lt (hg (Finset.mem_univ m))
  · intro h
    refine Finset.mem_filter.mpr ⟨Finset.mem_univ k, fun g => ?_⟩
    refine Finset.mem_filter.mpr ⟨Finset.mem_univ k, ?_⟩
    rw [Finset.card_eq_zero, Finset.filter_eq_empty_iff]
    intro m _
    exact not_lt_of_le (h g m)

/-- Claim C3: at a pruning-eligible iteration, a factor is a removal
candidate iff its R2 is at most min_r2 in every view of every group;
among the factors eligible in every group at most one is removed (exactly
one when any is eligible), drawn from the candidate set by the random
oracle; `removeFactors` is applied with the same index list to every
registered node, so each factor-indexed array of length K shrinks to the
new K; K decreases by exactly the number removed (hence is
non-increasing), and the fatal flag is set exactly when the new K is 0. -/
theorem removeInactiveFactors_spec (G M K : ℕ)
    (r2 : Fin G → Fin M → Fin K → ℚ) (min_r2 : ℚ)
    (pick : Finset (Fin K) → Fin K) (nodes : List (List ℚ))
    (hpick : ∀ s : Finset (Fin K), s.Nonempty → pick s ∈ s) :
    (∀ k : Fin K, k ∈ dropCandidates G M K r2 min_r2 ↔
        ∀ g m, r2 g m k ≤ min_r2)
    ∧ (removeInactiveFactors G M K r2 min_r2 pick nodes).dropped.length
        = (if (dropCandidates G M K r2 min_r2).Nonempty then 1 else 0)
    ∧ (∀ j ∈ (removeInactiveFactors G M K r2 min_r2 pick nodes).dropped,
        ∃ k : Fin K, k ∈ dropCandidates G M K r2 min_r2 ∧ j = k.val)
    ∧ (removeInactiveFactors G M K r2 min_r2 pick nodes).nodes2
        = nodes.map (removeFactors
            (removeInactiveFactors G M K r2 min_r2 pick nodes).dropped)
    ∧ (∀ xs ∈ nodes, xs.length = K →
        ∀ j ∈ (removeInactiveFactors G M K r2 min_r2 pick nodes).dropped,
          (removeFactors [j] xs).length
            = (removeInactiveFactors G M K r2 min_r2 pick nodes).newK)
    ∧ (removeInactiveFactors G M K r2 min_r2 pick nodes).newK
        = K - (removeInactiveFactors G M K r2 min_r2 pick nodes).dropped.length
    ∧ (removeInactiveFactors G M K r2 min_r2 pick nodes).newK ≤ K
    ∧ ((removeInactiveFactors G M K r2 min_r2 pick nodes).fatal = true ↔
        (removeInactiveFactors G M K r2 min_r2 pick nodes).newK = 0) := by
  by_cases hne : (dropCandidates G M K r2 min_r2).card = 0
  · have hempty : ¬ (dropCandidates G M K r2 min_r2).Nonempty := by
      rw [Finset.nonempty_iff_ne_empty]
      simp [Finset.card_eq_zero.mp hne]
    have hres : removeInactiveFactors G M K r2 min_r2 pick nodes
        = { dropped := [], nodes2 := nodes, newK := K, fatal := K == 0 } := by
      simp [removeInactiveFactors, hne]
    refine ⟨mem_dropCandidates_iff G M K r2 min_r2, ?_, ?_, ?_, ?_, ?_, ?_, ?_⟩
    · rw [hres]; simp [hempty]
    · rw [hres]; intro j hj; simp at hj
    · rw [hres]
      exact ((List.map_congr_left
        (fun xs _ => removeFactors_nil_idxs xs)).trans (List.map_id nodes)).symm
    · rw [hres]; intro xs hxs hlen j hj; simp at hj
    · rw [hres]; rfl
    · rw [hres]
    · rw [hres]; simp
  · have hnonempty : (dropCandidates G M K r2 min_r2).Nonempty :=
      Finset.card_pos.mp (Nat.pos_of_ne_zero hne)
    have hmem := hpick _ hnonempty
    have hlt : (pick (dropCandidates G M K r2 min_r2)).val < K :=
      (pick (dropCandidates G M K r2 min_r2)).isLt
    have hres : removeInactiveFactors G M K r2 min_r2 pick nodes
        = { dropped := [(pick (dropCandidates G M K r2 min_r2)).val]
            nodes2 := nodes.map
              (removeFactors [(pick (dropCandidates G M K r2 min_r2)).val])
            newK := K - 1
            fatal := K - 1 == 0 } := by
      simp [removeInactiveFactors, hne]
    refine ⟨mem_dropCandidates_iff G M K r2 min_r2, ?_, ?_, ?_, ?_, ?_, ?_, ?_⟩
    · rw [hres]; simp [hnonempty]
    · rw [hres]; intro j hj
      simp only [List.mem_singleton] at hj
      exact ⟨pick (dropCandidates G M K r2 min_r2), hmem, hj⟩
    · rw [hres]
    · rw [hres]
      intro xs hxs hlen j hj
      simp only [List.mem_singleton] at hj
      subst hj
      rw [removeFactors_single_length _ xs (by omega), hlen]
    · rw [hres]; rfl
    · rw [hres]; exact Nat.sub_le K 1
    · rw [hres]; simp

/-- Choice oracle used by the C3 witness: the least element of a
non-empty finite set. -/
def pickMin (s : Finset (Fin 2)) : Fin 2 :=
  if h : s.Nonempty then s.min' h else 0

/-- Explained-variance table used by the C3 witness: factor 0 inactive
everywhere, factor 1 active. -/
def r2ex : Fin 1 → Fin 1 → Fin 2 → ℚ := fun _ _ k => if k = 0 then 0 else 1

/-- Node registry used by the C3 witness: two nodes, each owning one
factor-indexed array of length 2. -/
def nodesEx : List (List ℚ) := [[10, 20], [30, 40]]

lemma pickMin_mem : ∀ s : Finset (Fin 2), s.Nonempty → pickMin s ∈ s := by
  intro s hs
  simp only [pickMin, dif_pos hs]
  exact s.min'_mem hs

/-- Witness for the C3 theorem: two factors, one group, one view, two
nodes; only factor 0 is below threshold. -/
theorem removeInactiveFactors_spec_witness :
    (∀ s : Finset (Fin 2), s.Nonempty → pickMin s ∈ s)
    ∧ ((∀ k : Fin 2, k ∈ dropCandidates 1 1 2 r2ex (1 / 2) ↔
          ∀ g m, r2ex g m k ≤ 1 / 2)
      ∧ (removeInactiveFactors 1 1 2 r2ex (1 / 2) pickMin nodesEx).dropped.length
          = (if (dropCandidates 1 1 2 r2ex (1 / 2)).Nonempty then 1 else 0)
      ∧ (∀ j ∈ (removeInactiveFactors 1 1 2 r2ex (1 / 2) pickMin nodesEx).dropped,
          ∃ k : Fin 2, k ∈ dropCandidates 1 1 2 r2ex (1 / 2) ∧ j = k.val)
      ∧ (removeInactiveFactors 1 1 2 r2ex (1 / 2) pickMin nodesEx).nodes2
          = nodesEx.map (removeFactors
              (removeInactiveFactors 1 1 2 r2ex (1 / 2) pickMin nodesEx).dropped)
      ∧ (∀ xs ∈ nodesEx, xs.length = 2 →
          ∀ j ∈ (removeInactiveFactors 1 1 2 r2ex (1 / 2) pickMin nodesEx).dropped,
            (removeFactors [j] xs).length
              = (removeInactiveFactors 1 1 2 r2ex (1 / 2) pickMin nodesEx).newK)
      ∧ (removeInactiveFactors 1 1 2 r2ex (1 / 2) pickMin nodesEx).newK
          = 2 - (removeInactiveFactors 1 1 2 r2ex (1 / 2) pickMin
              nodesEx).dropped.length
      ∧ (removeInactiveFactors 1 1 2 r2ex (1 / 2) pickMin nodesEx).newK ≤ 2
      ∧ ((removeInactiveFactors 1 1 2 r2ex (1 / 2) pickMin nodesEx).fatal = true ↔
          (removeInactiveFactors 1 1 2 r2ex (1 / 2) pickMin nodesEx).newK = 0)) :=
  ⟨pickMin_mem,
    removeInactiveFactors_spec 1 1 2 r2ex (1 / 2) pickMin nodesEx pickMin_mem⟩

/-! ### Mini-batches: `StochasticBayesNet.sample_mini_batch_no_replace` -/

/-- `math.ceil(1./batch_size)`: the number of mini-batches per epoch. -/
def nBatches (bs : ℚ) : ℕ := (Int.ceil (1 / bs)).toNat

/-- `int(S * batch_ix)` with `S = batch_size * N`: the lower slice bound
of the mini-batch with batch index `b`. -/
def batchLo (bs : ℚ) (N b : ℕ) : ℕ := (Int.floor (bs * N * b)).toNat

/-- `int(S * (batch_ix + 1))`, capped at `N` as in the source
(`if max > self.dim['N']: max = self.dim['N']`). -/
def batchHi (bs : ℚ) (N b : ℕ) : ℕ :=
  min ((Int.floor (bs * N * (b + 1))).toNat) N

/-- `self.shuffled_ix[min:max]`: the mini-batch with batch index `b`,
sliced out of the epoch's permutation. -/
def miniBatch (bs : ℚ) (N : ℕ) (perm : List ℕ) (b : ℕ) : List ℕ :=
  (perm.drop (batchLo bs N b)).take (batchHi bs N b - batchLo bs N b)

/-- `batch_ix = i % n_batches` after the `i -= 1` adjustment: the batch
index of (1-based) stochastic iteration `i`. -/
def batchIndexOf (bs : ℚ) (i : ℕ) : ℕ := (i - 1) % nBatches bs

/-- `epoch = int(i / n_batches)` after the `i -= 1` adjustment. -/
def epochOf (bs : ℚ) (i : ℕ) : ℕ := (i - 1) / nBatches bs

/-- The mini-batches of one epoch, in batch-index order. -/
def epochBatches (bs : ℚ) (N : ℕ) (perm : List ℕ) : List (List ℕ) :=
  (List.range (nBatches bs)).map (miniBatch bs N perm)

/-- The cut sequence of an epoch: slice bounds clipped to `N` past the
last batch. -/
def batchCut (bs : ℚ) (N b : ℕ) : ℕ :=
  if b < nBatches bs then batchLo bs N b else N

lemma nBatches_pos {bs : ℚ} (hbs0 : 0 < bs) (hbs1 : bs ≤ 1) :
    1 ≤ nBatches bs := by
  have h1 : (1 : ℚ) ≤ 1 / bs := by
    rw [le_div_iff hbs0]
    linarith
  have h2 : (1 : ℤ) ≤ Int.ceil (1 / bs) := by
    have := Int.le_ceil ((1 : ℚ) / bs)
    have h3 : (1 : ℚ) ≤ (Int.ceil ((1 : ℚ) / bs) : ℚ) := le_trans h1 this
    exact_mod_cast h3
  unfold nBatches
  omega

lemma mul_lt_N_of_lt_nBatches {bs : ℚ} {N b : ℕ} (hbs0 : 0 < bs)
    (hN : 1 ≤ N) (hb : b < nBatches bs) : bs * N * b < N := by
  have hceil : ((nBatches bs : ℤ) : ℚ) = ((Int.ceil ((1 : ℚ) / bs) : ℤ) : ℚ) := by
    have hnn : (0 : ℤ) ≤ Int.ceil ((1 : ℚ) / bs) := by
      have hpos : (0 : ℚ) < 1 / bs := by positivity
      exact le_of_lt (Int.ceil_pos.mpr hpos)
    rw [nBatches, Int.toNat_of_nonneg hnn]
  have hblt : (b : ℚ) < 1 / bs := by
    have hble : (b : ℚ) ≤ (nBatches bs : ℚ) - 1 := by
      have : (b : ℕ) + 1 ≤ nBatches bs := hb
      have hcast : (b : ℚ) + 1 ≤ (nBatches bs : ℚ) := by exact_mod_cast this
      linarith
    have hclt : ((Int.ceil ((1 : ℚ) / bs) : ℤ) : ℚ) < 1 / bs + 1 :=
      Int.ceil_lt_add_one ((1 : ℚ) / bs)
    push_cast at hceil
    linarith [hceil ▸ hclt]
  have hNpos : (0 : ℚ) < N := by exact_mod_cast hN
  calc bs * N * b = N * (bs * b) := by ring
    _ < N * 1 := by
        have : bs * b < 1 := by
          have := (lt_div_iff hbs0).mp hblt
          linarith
        exact mul_lt_mul_of_pos_left this hNpos
    _ = N := mul_one _

lemma N_le_mul_nBatches {bs : ℚ} {N : ℕ} (hbs0 : 0 < bs) :
    (N : ℚ) ≤ bs * N * nBatches bs := by
  have hpos : (0 : ℚ) < 1 / bs := by positivity
  have hcast : ((nBatches bs : ℕ) : ℚ) = ((Int.ceil ((1 : ℚ) / bs) : ℤ) : ℚ) := by
    have hnn : (0 : ℤ) ≤ Int.ceil ((1 : ℚ) / bs) :=
      le_of_lt (Int.ceil_pos.mpr hpos)
    rw [nBatches]
    exact_mod_cast congrArg (fun z : ℤ => (z : ℚ)) (Int.toNat_of_nonneg hnn)
  have hle : (1 : ℚ) / bs ≤ (nBatches bs : ℚ) := by
    rw [hcast]
    exact Int.le_ceil _
  have hNnn : (0 : ℚ) ≤ (N : ℚ) := by positivity
  have key : bs * N * (1 / bs) ≤ bs * N * nBatches bs := by
    apply mul_le_mul_of_nonneg_left hle
    positivity
  have hid : bs * N * (1 / bs) = N := by
    field_simp
  linarith [hid ▸ key]

lemma batchLo_lt_N {bs : ℚ} {N b : ℕ} (hbs0 : 0 < bs) (hN : 1 ≤ N)
    (hb : b < nBatches bs) : batchLo bs N b < N := by
  have hflt : Int.floor (bs * N * b) < (N : ℤ) := by
    rw [Int.floor_lt]
    exact_mod_cast mul_lt_N_of_lt_nBatches hbs0 hN hb
  have hfnn : (0 : ℤ) ≤ Int.floor (bs * N * b) := by
    rw [Int.floor_nonneg]
    positivity
  unfold batchLo
  omega

lemma batchLo_zero (bs : ℚ) (N : ℕ) : batchLo bs N 0 = 0 := by
  simp [batchLo]

lemma batchLo_mono {bs : ℚ} {N : ℕ} (hbs0 : 0 < bs) (b : ℕ) :
    batchLo bs N b ≤ batchLo bs N (b + 1) := by
  have h : Int.floor (bs * N * (b : ℚ))
      ≤ Int.floor (bs * N * ((b + 1 : ℕ) : ℚ)) := by
    apply Int.floor_le_floor
    have hcast : ((b + 1 : ℕ) : ℚ) = (b : ℚ) + 1 := by push_cast; ring
    rw [hcast]
    nlinarith [le_of_lt hbs0, (by positivity : (0:ℚ) ≤ (N:ℚ)),
      (by positivity : (0:ℚ) ≤ (b:ℚ))]
  unfold batchLo
  omega

lemma N_le_batchLo_nBatches {bs : ℚ} {N : ℕ} (hbs0 : 0 < bs) :
    N ≤ batchLo bs N (nBatches bs) := by
  have h : (N : ℤ) ≤ Int.floor (bs * N * nBatches bs) := by
    rw [Int.le_floor]
    exact_mod_cast N_le_mul_nBatches hbs0
  unfold batchLo
  omega

lemma batchCut_zero {bs : ℚ} {N : ℕ} (hbs0 : 0 < bs) (hbs1 : bs ≤ 1) :
    batchCut bs N 0 = 0 := by
  have h : 0 < nBatches bs := nBatches_pos hbs0 hbs1
  rw [batchCut, if_pos h, batchLo_zero]

lemma batchCut_mono {bs : ℚ} {N : ℕ} (hbs0 : 0 < bs) (hN : 1 ≤ N) (b : ℕ) :
    batchCut bs N b ≤ batchCut bs N (b + 1) := by
  unfold batchCut
  by_cases h1 : b + 1 < nBatches bs
  · rw [if_pos (by omega), if_pos h1]
    exact batchLo_mono hbs0 b
  · by_cases h2 : b < nBatches bs
    · rw [if_pos h2, if_neg h1]
      exact le_of_lt (batchLo_lt_N hbs0 hN h2)
    · rw [if_neg h2, if_neg h1]

lemma batchHi_eq (bs : ℚ) (N b : ℕ) :
    batchHi bs N b = min (batchLo bs N (b + 1)) N := by
  rw [batchHi, batchLo]
  norm_num [Nat.cast_add]

lemma miniBatch_eq_cut_slice {bs : ℚ} {N b : ℕ} (perm : List ℕ)
    (hbs0 : 0 < bs) (hN : 1 ≤ N) (hb : b < nBatches bs) :
    miniBatch bs N perm b =
      (perm.drop (batchCut bs N b)).take
        (batchCut bs N (b + 1) - batchCut bs N b) := by
  simp only [batchCut]
  rw [if_pos hb, miniBatch, batchHi_eq]
  by_cases h1 : b + 1 < nBatches bs
  · rw [if_pos h1, min_eq_left (le_of_lt (batchLo_lt_N hbs0 hN h1))]
  · rw [if_neg h1]
    have hb1 : b + 1 = nBatches bs := by omega
    rw [hb1, min_eq_right (@N_le_batchLo_nBatches bs N hbs0)]

lemma flatten_cut_slices (l : List ℕ) (c : ℕ → ℕ) (hc0 : c 0 = 0)
    (hmono : ∀ b, c b ≤ c (b + 1)) :
    ∀ n, ((List.range n).map
        (fun b => (l.drop (c b)).take (c (b + 1) - c b))).flatten
      = l.take (c n) := by
  intro n
  induction n with
  | zero => simp [hc0]
  | succ n ih =>
      rw [List.range_succ, List.map_append, List.flatten_append, ih]
      simp only [List.map_cons, List.map_nil, List.flatten_cons,
        List.flatten_nil, List.append_nil]
      rw [← List.take_add]
      congr 1
      have := hmono n
      omega

/-- Claim C4: during the stochastic phase each epoch slices a single
permutation of all N sample indices into ⌈1/batch_size⌉ consecutive
chunks, one per iteration; for every N ≥ 1 and batch_size ∈ (0,1] the
mini-batches of one epoch concatenate back to the epoch's permutation,
hence are pairwise disjoint with union the full index set [0,N); a fresh
permutation is drawn exactly when the batch index returns to 0, i.e. at
each epoch boundary. -/
theorem sample_mini_batch_no_replace_epoch_cover (bs : ℚ) (N : ℕ)
    (perm : List ℕ) (hbs0 : 0 < bs) (hbs1 : bs ≤ 1) (hN : 1 ≤ N)
    (hperm : perm.Perm (List.range N)) :
    (epochBatches bs N perm).length = nBatches bs
    ∧ (epochBatches bs N perm).flatten = perm
    ∧ (epochBatches bs N perm).flatten.Perm (List.range N)
    ∧ (∀ l ∈ epochBatches bs N perm, l.Nodup)
    ∧ List.Pairwise List.Disjoint (epochBatches bs N perm)
    ∧ (∀ i, batchIndexOf bs i = 0 ↔ nBatches bs ∣ (i - 1))
    ∧ (∀ i, nBatches bs * epochOf bs i + batchIndexOf bs i = i - 1) := by
  have hlen : perm.length = N := by
    rw [hperm.length_eq, List.length_range]
  have hflat : (epochBatches bs N perm).flatten = perm := by
    rw [epochBatches]
    have hmap : (List.range (nBatches bs)).map (miniBatch bs N perm)
        = (List.range (nBatches bs)).map
            (fun b => (perm.drop (batchCut bs N b)).take
              (batchCut bs N (b + 1) - batchCut bs N b)) :=
      List.map_congr_left
        (fun b hb => miniBatch_eq_cut_slice perm hbs0 hN (List.mem_range.mp hb))
    rw [hmap, flatten_cut_slices perm (batchCut bs N)
      (batchCut_zero hbs0 hbs1) (batchCut_mono hbs0 hN) (nBatches bs)]
    have hcutN : batchCut bs N (nBatches bs) = N := by
      rw [batchCut, if_neg (lt_irrefl _)]
    rw [hcutN, ← hlen, List.take_length]
  have hnodup : (epochBatches bs N perm).flatten.Nodup := by
    rw [hflat]
    exact (hperm.nodup_iff).mpr (List.nodup_range N)
  have hnodup2 := List.nodup_flatten.mp hnodup
  refine ⟨?_, hflat, ?_, hnodup2.1, hnodup2.2, ?_, ?_⟩
  · rw [epochBatches, List.length_map, List.length_range]
  · rw [hflat]
    exact hperm
  · intro i
    rw [batchIndexOf]
    constructor
    · intro h
      exact Nat.dvd_iff_mod_eq_zero.mpr h
    · intro h
      exact Nat.dvd_iff_mod_eq_zero.mp h
  · intro i
    exact Nat.div_add_mod (i - 1) (nBatches bs)

lemma nBatches_three_tenths : nBatches (3 / 10) = 4 := by
  rw [nBatches]
  have h : (1 : ℚ) / (3 / 10) = 10 / 3 := by norm_num
  rw [h]
  have hceil : Int.ceil ((10 : ℚ) / 3) = 4 := by
    rw [Int.ceil_eq_iff] <;> norm_num
  rw [hceil]
  rfl

/-- Witness for the C4 theorem at the spec's example: N = 97,
batch_size = 0.3, identity permutation; the epoch has ⌈1/0.3⌉ = 4
batches. -/
theorem sample_mini_batch_no_replace_epoch_cover_witness :
    ((0 : ℚ) < 3 / 10 ∧ (3 : ℚ) / 10 ≤ 1 ∧ 1 ≤ 97
      ∧ (List.range 97).Perm (List.range 97) ∧ nBatches (3 / 10) = 4)
    ∧ ((epochBatches (3 / 10) 97 (List.range 97)).length = nBatches (3 / 10)
      ∧ (epochBatches (3 / 10) 97 (List.range 97)).flatten = List.range 97
      ∧ (epochBatches (3 / 10) 97 (List.range 97)).flatten.Perm (List.range 97)
      ∧ (∀ l ∈ epochBatches (3 / 10) 97 (List.range 97), l.Nodup)
      ∧ List.Pairwise List.Disjoint (epochBatches (3 / 10) 97 (List.range 97))
      ∧ (∀ i, batchIndexOf (3 / 10) i = 0 ↔ nBatches (3 / 10) ∣ (i - 1))
      ∧ (∀ i, nBatches (3 / 10) * epochOf (3 / 10) i + batchIndexOf (3 / 10) i
          = i - 1)) :=
  ⟨⟨by norm_num, by norm_num, by norm_num, List.Perm.refl _,
      nBatches_three_tenths⟩,
    sample_mini_batch_no_replace_epoch_cover (3 / 10) 97 (List.range 97)
      (by norm_num) (by norm_num) (by norm_num) (List.Perm.refl _)⟩

/-! ### Stochastic step size: `StochasticBayesNet.step_size2` and its use
in `StochasticBayesNet.iterate` -/

/-- `step_size2(i) = learning_rate / (1 + forgetting_rate*i)**(3./4.)`,
idealised over the reals. -/
noncomputable def step_size2 (learning_rate forgetting_rate : ℝ) (i : ℕ) : ℝ :=
  learning_rate / (1 + forgetting_rate * i) ^ ((3 : ℝ) / 4)

/-- Step-size selection in `StochasticBayesNet.iterate`: before iteration
start_stochastic the full-batch step ro = 1 is used; from start_stochastic
on, ro = step_size2(epoch) where the epoch comes from
`sample_mini_batch_no_replace(i - (start_stochastic - 1))`.  The same ro
is passed to `update` for every node of the schedule. -/
noncomputable def rhoAt (lr fr : ℝ) (bs : ℚ) (ss i : ℕ) : ℝ :=
  if ss ≤ i then step_size2 lr fr (epochOf bs (i - (ss - 1))) else 1

/-- Claim C8: before iteration start_stochastic every update uses ro = 1;
on and after it, every update uses ro = step_size2(epoch) with
epoch = (i - start_stochastic) / n_batches; and with learning_rate = 1,
forgetting_rate = 1/2 the step size satisfies ρ(0) = 1 and is strictly
decreasing in the epoch. -/
theorem step_size_schedule (lr fr : ℝ) (bs : ℚ) (ss : ℕ)
    (hss : 1 ≤ ss) (hlr : lr = 1) (hfr : fr = 1 / 2) :
    (∀ i, i < ss → rhoAt lr fr bs ss i = 1)
    ∧ (∀ i, ss ≤ i → rhoAt lr fr bs ss i
        = step_size2 lr fr ((i - ss) / nBatches bs))
    ∧ step_size2 lr fr 0 = 1
    ∧ StrictAnti (fun e : ℕ => step_size2 lr fr e) := by
  subst hlr hfr
  refine ⟨?_, ?_, ?_, ?_⟩
  · intro i hi
    rw [rhoAt, if_neg (by omega)]
  · intro i hi
    rw [rhoAt, if_pos hi]
    congr 1
    rw [epochOf]
    congr 1
    omega
  · rw [step_size2]
    simp [Real.one_rpow]
  · apply strictAnti_nat_of_succ_lt
    intro n
    simp only [step_size2]
    have hbase : (0 : ℝ) < 1 + (1 / 2) * n := by positivity
    have hlt : (1 : ℝ) + (1 / 2) * n < 1 + (1 / 2) * ((n : ℕ) + 1 : ℕ) := by
      push_cast
      linarith
    have hpow : ((1 : ℝ) + (1 / 2) * n) ^ ((3 : ℝ) / 4)
        < ((1 : ℝ) + (1 / 2) * ((n : ℕ) + 1 : ℕ)) ^ ((3 : ℝ) / 4) :=
      Real.rpow_lt_rpow (le_of_lt hbase) hlt (by norm_num)
    have hpos : (0 : ℝ) < ((1 : ℝ) + (1 / 2) * n) ^ ((3 : ℝ) / 4) :=
      Real.rpow_pos_of_pos hbase _
    exact one_div_lt_one_div_of_lt hpos hpow

/-- Witness for the C8 theorem: learning_rate = 1, forgetting_rate = 1/2,
batch_size = 3/10, start_stochastic = 1. -/
theorem step_size_schedule_witness :
    ((1 : ℕ) ≤ 1 ∧ (1 : ℝ) = 1 ∧ (1 / 2 : ℝ) = 1 / 2)
    ∧ ((∀ i, i < 1 → rhoAt 1 (1 / 2) (3 / 10) 1 i = 1)
      ∧ (∀ i, 1 ≤ i → rhoAt 1 (1 / 2) (3 / 10) 1 i
          = step_size2 1 (1 / 2) ((i - 1) / nBatches (3 / 10)))
      ∧ step_size2 1 (1 / 2) 0 = 1
      ∧ StrictAnti (fun e : ℕ => step_size2 1 (1 / 2) e)) :=
  ⟨⟨le_refl 1, rfl, rfl⟩,
    step_size_schedule 1 (1 / 2) (3 / 10) 1 (le_refl 1) rfl rfl⟩

/-! ### Noise-precision node: `TauD_Node` (`biofam/core/nodes/Tau_nodes.py`) -/

/-- Zero all masked entries in place: `A[mask] = 0.`. -/
def maskTo0 {N D : ℕ} (mask : Fin N → Fin D → Bool)
    (A : Fin N → Fin D → ℚ) : Fin N → Fin D → ℚ :=
  fun n d => if mask n d then 0 else A n d

/-- `Z.dot(W.T)`: product of an N×K matrix with the transpose of a D×K
matrix. -/
def mulT {N D K : ℕ} (Z : Fin N → Fin K → ℚ) (W : Fin D → Fin K → ℚ) :
    Fin N → Fin D → ℚ :=
  fun n d => ∑ k, Z n k * W d k

/-- `A.sum(axis=0)`: per-feature column sums. -/
def colSum {N D : ℕ} (A : Fin N → Fin D → ℚ) : Fin D → ℚ :=
  fun d => ∑ n, A n d

/-- `mask.sum(axis=0)`: the number of missing entries per feature. -/
def maskCount {N D : ℕ} (mask : Fin N → Fin D → Bool) : Fin D → ℕ :=
  fun d => (Finset.univ.filter (fun n => mask n d = true)).card

/-- The number of non-missing observations per feature (spec wording for
`Y.shape[0] - mask.sum(axis=0)`). -/
def nonMissingCount {N D : ℕ} (mask : Fin N → Fin D → Bool) : Fin D → ℕ :=
  fun d => (Finset.univ.filter (fun n => ¬ mask n d = true)).card

/-- The shared state visible to `TauD_Node.updateParameters`: the
observation node's stored data buffer and its mask, the Markov-blanket
expectations of the factor-score node Z and the loading node W (first and
second moments), and this node's prior (P) and posterior (Q) Gamma
parameters.  `getExpectation` returns a reference into shared state (spec
section 5), so the in-place `Y[mask] = 0.` of the source acts on
`yData`. -/
structure TauState (N D K : ℕ) where
  yData : Fin N → Fin D → ℚ
  mask : Fin N → Fin D → Bool
  zE : Fin N → Fin K → ℚ
  zE2 : Fin N → Fin K → ℚ
  wE : Fin D → Fin K → ℚ
  wE2 : Fin D → Fin K → ℚ
  pa : Fin D → ℚ
  pb : Fin D → ℚ
  qa : Fin D → ℚ
  qb : Fin D → ℚ

namespace TauD

/-- `TauD_Node.precompute`:
`Qa_pre = P.a + (Y.shape[0] - mask.sum(axis=0))/2.`. -/
def Qa_pre {N D : ℕ} (Pa : Fin D → ℚ) (mask : Fin N → Fin D → Bool) :
    Fin D → ℚ :=
  fun d => Pa d + ((N : ℚ) - maskCount mask d) / 2

/-- `term1 = square(Y).sum(axis=0)` (Y already masked in place). -/
def term1 {N D : ℕ} (mask : Fin N → Fin D → Bool) (Y : Fin N → Fin D → ℚ) :
    Fin D → ℚ :=
  colSum (fun n d => maskTo0 mask Y n d ^ 2)

/-- `term2 = ZZ.dot(WW.T); term2[mask] = 0; term2 = term2.sum(axis=0)`. -/
def term2 {N D K : ℕ} (mask : Fin N → Fin D → Bool)
    (ZZ : Fin N → Fin K → ℚ) (WW : Fin D → Fin K → ℚ) : Fin D → ℚ :=
  colSum (maskTo0 mask (mulT ZZ WW))

/-- `term3 = -(square(Z).dot(square(W).T) masked).sum(axis=0)
+ (square(ZW)).sum(axis=0)` with ZW masked. -/
def term3 {N D K : ℕ} (mask : Fin N → Fin D → Bool)
    (Z : Fin N → Fin K → ℚ) (W : Fin D → Fin K → ℚ) : Fin D → ℚ :=
  fun d =>
    colSum (fun n dd => maskTo0 mask (mulT Z W) n dd ^ 2) d
      - colSum (maskTo0 mask
          (mulT (fun n k => Z n k ^ 2) (fun dd k => W dd k ^ 2))) d

/-- `ZW *= Y; term4 = 2.*(ZW.sum(axis=0))` (both ZW and Y masked). -/
def term4 {N D K : ℕ} (mask : Fin N → Fin D → Bool)
    (Y : Fin N → Fin D → ℚ) (Z : Fin N → Fin K → ℚ)
    (W : Fin D → Fin K → ℚ) : Fin D → ℚ :=
  fun d => 2 * colSum (fun n dd => maskTo0 mask (mulT Z W) n dd
      * maskTo0 mask Y n dd) d

/-- `Qb = Pb + (term1 + term2 + term3 - term4)/2.`. -/
def Qb_update {N D K : ℕ} (mask : Fin N → Fin D → Bool)
    (Y : Fin N → Fin D → ℚ) (Z ZZ : Fin N → Fin K → ℚ)
    (W WW : Fin D → Fin K → ℚ) (Pb : Fin D → ℚ) : Fin D → ℚ :=
  fun d => Pb d + (term1 mask Y d + term2 mask ZZ WW d + term3 mask Z W d
      - term4 mask Y Z W d) / 2

/-- `TauD_Node.updateParameters` as a transition on the shared state:
the in-place `Y[mask] = 0.` writes zeros into the observation buffer, and
`self.Q.setParameters(a=self.Qa_pre, b=Qb)` replaces this node's Q. -/
def updateParameters {N D K : ℕ} (st : TauState N D K) : TauState N D K :=
  { st with
    yData := maskTo0 st.mask st.yData
    qa := Qa_pre st.pa st.mask
    qb := Qb_update st.mask st.yData st.zE st.zE2 st.wE st.wE2 st.pb }

/-- `TauD_Node.precompute`:
`lbconst = sum(P.a*log(P.b) - gammaln(P.a))`, with `log` and `lnΓ` kept
abstract (any functions; the source uses `s.log` and
`special.gammaln`). -/
def lbconst {D : ℕ} (log gamln : ℚ → ℚ) (Pa Pb : Fin D → ℚ) : ℚ :=
  ∑ d, (Pa d * log (Pb d) - gamln (Pa d))

/-- `TauD_Node.calculateELBO`: `lb_p - lb_q`. -/
def calculateELBO {D : ℕ} (log gamln : ℚ → ℚ)
    (Pa Pb Qa Qb QE QlnE : Fin D → ℚ) : ℚ :=
  let lb_p := lbconst log gamln Pa Pb + (∑ d, (Pa d - 1) * QlnE d)
      - ∑ d, Pb d * QE d
  let lb_q := (∑ d, Qa d * log (Qb d)) + (∑ d, (Qa d - 1) * QlnE d)
      - (∑ d, Qb d * QE d) - ∑ d, gamln (Qa d)
  lb_p - lb_q

end TauD

/-- Claim-side reading of term1: masked column-sum of squared
observations. -/
def specTerm1 {N D : ℕ} (mask : Fin N → Fin D → Bool)
    (Y : Fin N → Fin D → ℚ) : Fin D → ℚ :=
  colSum (maskTo0 mask (fun n d => Y n d ^ 2))

/-- Claim-side reading of term3: masked column-sum of
`(Z·Wᵀ)² − Z²·(W²)ᵀ`. -/
def specTerm3 {N D K : ℕ} (mask : Fin N → Fin D → Bool)
    (Z : Fin N → Fin K → ℚ) (W : Fin D → Fin K → ℚ) : Fin D → ℚ :=
  colSum (maskTo0 mask (fun n d => mulT Z W n d ^ 2
    - mulT (fun n k => Z n k ^ 2) (fun dd k => W dd k ^ 2) n d))

/-- Claim-side reading of term4: twice the masked column-sum of
`(Z·Wᵀ)` elementwise-times Y. -/
def specTerm4 {N D K : ℕ} (mask : Fin N → Fin D → Bool)
    (Y : Fin N → Fin D → ℚ) (Z : Fin N → Fin K → ℚ)
    (W : Fin D → Fin K → ℚ) : Fin D → ℚ :=
  fun d => 2 * colSum (maskTo0 mask (fun n dd => mulT Z W n dd * Y n dd)) d

lemma term1_eq_spec {N D : ℕ} (mask : Fin N → Fin D → Bool)
    (Y : Fin N → Fin D → ℚ) : TauD.term1 mask Y = specTerm1 mask Y := by
  funext d
  simp only [TauD.term1, specTerm1, colSum]
  refine Finset.sum_congr rfl (fun n _ => ?_)
  by_cases h : mask n d <;> simp [maskTo0, h]

lemma term3_eq_spec {N D K : ℕ} (mask : Fin N → Fin D → Bool)
    (Z : Fin N → Fin K → ℚ) (W : Fin D → Fin K → ℚ) :
    TauD.term3 mask Z W = specTerm3 mask Z W := by
  funext d
  rw [TauD.term3, specTerm3, colSum, colSum, colSum, ← Finset.sum_sub_distrib]
  refine Finset.sum_congr rfl (fun n _ => ?_)
  by_cases h : mask n d <;> simp [maskTo0, h]

lemma term4_eq_spec {N D K : ℕ} (mask : Fin N → Fin D → Bool)
    (Y : Fin N → Fin D → ℚ) (Z : Fin N → Fin K → ℚ)
    (W : Fin D → Fin K → ℚ) :
    TauD.term4 mask Y Z W = specTerm4 mask Y Z W := by
  funext d
  simp only [TauD.term4, specTerm4, colSum]
  congr 1
  refine Finset.sum_congr rfl (fun n _ => ?_)
  by_cases h : mask n d <;> simp [maskTo0, h]

/-- Claim C5: `updateParameters` sets the posterior rate to
`b_Q = b_P + (term1 + term2 + term3 − term4)/2` with the four terms read
as the spec words them, and the posterior shape to `a_Q = a_pre`, where
`a_pre = a_P + (count of non-missing observations per feature)/2` is
fixed at precompute time and unchanged by any number of update
iterations. -/
theorem updateParameters_posterior (N D K : ℕ) (st : TauState N D K)
    (m : ℕ) (hm : 1 ≤ m) :
    (TauD.updateParameters st).qb
      = (fun d => st.pb d + (specTerm1 st.mask st.yData d
          + TauD.term2 st.mask st.zE2 st.wE2 d
          + specTerm3 st.mask st.zE st.wE d
          - specTerm4 st.mask st.yData st.zE st.wE d) / 2)
    ∧ (TauD.updateParameters st).qa = TauD.Qa_pre st.pa st.mask
    ∧ TauD.Qa_pre st.pa st.mask
      = (fun d => st.pa d + (nonMissingCount st.mask d : ℚ) / 2)
    ∧ (TauD.updateParameters^[m] st).qa = TauD.Qa_pre st.pa st.mask := by
  have hinv : ∀ j, (TauD.updateParameters^[j] st).pa = st.pa
      ∧ (TauD.updateParameters^[j] st).mask = st.mask := by
    intro j
    induction j with
    | zero => exact ⟨rfl, rfl⟩
    | succ j ih =>
        rw [Function.iterate_succ_apply']
        exact ⟨ih.1, ih.2⟩
  refine ⟨?_, rfl, ?_, ?_⟩
  · have h1 : (TauD.updateParameters st).qb
        = TauD.Qb_update st.mask st.yData st.zE st.zE2 st.wE st.wE2 st.pb :=
      rfl
    rw [h1]
    funext d
    simp only [TauD.Qb_update]
    rw [term1_eq_spec st.mask st.yData, term3_eq_spec st.mask st.zE st.wE,
      term4_eq_spec st.mask st.yData st.zE st.wE]
  · funext d
    rw [TauD.Qa_pre]
    have hcard : maskCount st.mask d + nonMissingCount st.mask d = N := by
      rw [maskCount, nonMissingCount,
        Finset.filter_card_add_filter_neg_card_eq_card]
      rw [Finset.card_univ, Fintype.card_fin]
    have hcast : (maskCount st.mask d : ℚ) + (nonMissingCount st.mask d : ℚ)
        = (N : ℚ) := by exact_mod_cast congrArg (Nat.cast : ℕ → ℚ) hcard
    have : (N : ℚ) - maskCount st.mask d = nonMissingCount st.mask d := by
      linarith
    rw [this]
  · obtain ⟨j, rfl⟩ : ∃ j, m = j + 1 := ⟨m - 1, by omega⟩
    rw [Function.iterate_succ_apply']
    have h2 : (TauD.updateParameters (TauD.updateParameters^[j] st)).qa
        = TauD.Qa_pre (TauD.updateParameters^[j] st).pa
            (TauD.updateParameters^[j] st).mask := rfl
    rw [h2, (hinv j).1, (hinv j).2]

/-- Concrete shared state over N = D = K = 1 used by the Tau-node
witnesses and counterexample: the single observation is masked (missing)
yet its stored buffer value is 5. -/
def frameEx : TauState 1 1 1 where
  yData := fun _ _ => 5
  mask := fun _ _ => true
  zE := fun _ _ => 1
  zE2 := fun _ _ => 1
  wE := fun _ _ => 1
  wE2 := fun _ _ => 1
  pa := fun _ => 1
  pb := fun _ => 1
  qa := fun _ => 1
  qb := fun _ => 1

/-- Witness for the C5 theorem at the concrete state `frameEx` with two
update iterations. -/
theorem updateParameters_posterior_witness :
    (1 ≤ 2)
    ∧ ((TauD.updateParameters frameEx).qb
        = (fun d => frameEx.pb d + (specTerm1 frameEx.mask frameEx.yData d
            + TauD.term2 frameEx.mask frameEx.zE2 frameEx.wE2 d
            + specTerm3 frameEx.mask frameEx.zE frameEx.wE d
            - specTerm4 frameEx.mask frameEx.yData frameEx.zE frameEx.wE d) / 2)
      ∧ (TauD.updateParameters frameEx).qa = TauD.Qa_pre frameEx.pa frameEx.mask
      ∧ TauD.Qa_pre frameEx.pa frameEx.mask
        = (fun d => frameEx.pa d + (nonMissingCount frameEx.mask d : ℚ) / 2)
      ∧ (TauD.updateParameters^[2] frameEx).qa
        = TauD.Qa_pre frameEx.pa frameEx.mask) :=
  ⟨by norm_num, updateParameters_posterior 1 1 1 frameEx 2 (by norm_num)⟩

/-- Claim C6: `TauD_Node.calculateELBO` returns lb_p − lb_q with the
stated formulas; when the Q parameters coincide with the P parameters the
contribution equals the data-independent constant 0 for any log/lnΓ and
any cached expectations — the KL term cancels to zero. -/
theorem tau_calculateELBO_formula_and_kl_zero (D : ℕ) (log gamln : ℚ → ℚ)
    (Pa Pb Qa Qb QE QlnE QEa QlnEa : Fin D → ℚ) :
    (TauD.calculateELBO log gamln Pa Pb Qa Qb QE QlnE
      = (TauD.lbconst log gamln Pa Pb + (∑ d, (Pa d - 1) * QlnE d)
          - ∑ d, Pb d * QE d)
        - ((∑ d, Qa d * log (Qb d)) + (∑ d, (Qa d - 1) * QlnE d)
          - (∑ d, Qb d * QE d) - ∑ d, gamln (Qa d)))
    ∧ TauD.calculateELBO log gamln Pa Pb Pa Pb QE QlnE = 0
    ∧ TauD.calculateELBO log gamln Pa Pb Pa Pb QE QlnE
      = TauD.calculateELBO log gamln Pa Pb Pa Pb QEa QlnEa := by
  have hzero : ∀ (E lnE : Fin D → ℚ),
      TauD.calculateELBO log gamln Pa Pb Pa Pb E lnE = 0 := by
    intro E lnE
    simp only [TauD.calculateELBO, TauD.lbconst]
    rw [Finset.sum_sub_distrib]
    ring
  exact ⟨rfl, hzero QE QlnE, by rw [hzero, hzero]⟩

/-- Witness for the C6 theorem at a concrete instance: D = 1, log and lnΓ
both the identity, P = Q = Gamma(2, 3), two distinct expectation
caches. -/
theorem tau_calculateELBO_formula_and_kl_zero_witness :
    (TauD.calculateELBO id id (fun _ : Fin 1 => 2) (fun _ => 3) (fun _ => 2)
        (fun _ => 3) (fun _ => 7) (fun _ => 11)
      = (TauD.lbconst id id (fun _ : Fin 1 => 2) (fun _ => 3)
          + (∑ d : Fin 1, ((fun _ : Fin 1 => (2 : ℚ)) d - 1)
              * (fun _ : Fin 1 => (11 : ℚ)) d)
          - ∑ d : Fin 1, (fun _ : Fin 1 => (3 : ℚ)) d
              * (fun _ : Fin 1 => (7 : ℚ)) d)
        - ((∑ d : Fin 1, (fun _ : Fin 1 => (2 : ℚ)) d
              * id ((fun _ : Fin 1 => (3 : ℚ)) d))
          + (∑ d : Fin 1, ((fun _ : Fin 1 => (2 : ℚ)) d - 1)
              * (fun _ : Fin 1 => (11 : ℚ)) d)
          - (∑ d : Fin 1, (fun _ : Fin 1 => (3 : ℚ)) d
              * (fun _ : Fin 1 => (7 : ℚ)) d)
          - ∑ d : Fin 1, id ((fun _ : Fin 1 => (2 : ℚ)) d)))
    ∧ TauD.calculateELBO id id (fun _ : Fin 1 => 2) (fun _ => 3) (fun _ => 2)
        (fun _ => 3) (fun _ => 7) (fun _ => 11) = 0
    ∧ TauD.calculateELBO id id (fun _ : Fin 1 => 2) (fun _ => 3) (fun _ => 2)
        (fun _ => 3) (fun _ => 7) (fun _ => 11)
      = TauD.calculateELBO id id (fun _ : Fin 1 => 2) (fun _ => 3)
          (fun _ => 2) (fun _ => 3) (fun _ => 13) (fun _ => 17) :=
  tau_calculateELBO_formula_and_kl_zero 1 id id (fun _ => 2) (fun _ => 3)
    (fun _ => 2) (fun _ => 3) (fun _ => 7) (fun _ => 11) (fun _ => 13)
    (fun _ => 17)

/-- Claim C7, counterexample: at `frameEx` the masked observation is
stored as 5; after `updateParameters` the observation node's buffer holds
0 there — the in-place `Y[mask] = 0.` of the source mutates the
observation node's stored data, so "the observation node's stored data
... are unchanged" fails. -/
theorem updateParameters_mutates_observation_buffer :
    (TauD.updateParameters frameEx).yData 0 0 = 0
    ∧ frameEx.yData 0 0 = 5
    ∧ (TauD.updateParameters frameEx).yData 0 0 ≠ frameEx.yData 0 0 := by
  refine ⟨rfl, rfl, ?_⟩
  norm_num [TauD.updateParameters, maskTo0, frameEx]

/-- Claim C7, amended: `updateParameters` mutates only this node's Q and,
additionally, overwrites the masked entries of the observation node's
shared data buffer with zeros.  The prior P, the mask, and every other
Markov-blanket neighbour's expectations are unchanged; all non-missing
observations are unchanged; and when the masked entries already hold 0
the observation buffer is unchanged entirely. -/
theorem updateParameters_frame (N D K : ℕ) (st : TauState N D K) :
    (TauD.updateParameters st).pa = st.pa
    ∧ (TauD.updateParameters st).pb = st.pb
    ∧ (TauD.updateParameters st).zE = st.zE
    ∧ (TauD.updateParameters st).zE2 = st.zE2
    ∧ (TauD.updateParameters st).wE = st.wE
    ∧ (TauD.updateParameters st).wE2 = st.wE2
    ∧ (TauD.updateParameters st).mask = st.mask
    ∧ (∀ n d, st.mask n d = false →
        (TauD.updateParameters st).yData n d = st.yData n d)
    ∧ (∀ n d, st.mask n d = true → (TauD.updateParameters st).yData n d = 0)
    ∧ ((∀ n d, st.mask n d = true → st.yData n d = 0) →
        (TauD.updateParameters st).yData = st.yData) := by
  refine ⟨rfl, rfl, rfl, rfl, rfl, rfl, rfl, ?_, ?_, ?_⟩
  · intro n d h
    simp [TauD.updateParameters, maskTo0, h]
  · intro n d h
    simp [TauD.updateParameters, maskTo0, h]
  · intro h
    funext n d
    by_cases hm : st.mask n d
    · simp [TauD.updateParameters, maskTo0, hm, (h n d hm).symm]
    · simp [TauD.updateParameters, maskTo0, hm]

/-- Witness for the amended C7 theorem at the concrete state
`frameEx`. -/
theorem updateParameters_frame_witness :
    (TauD.updateParameters frameEx).pa = frameEx.pa
    ∧ (TauD.updateParameters frameEx).pb = frameEx.pb
    ∧ (TauD.updateParameters frameEx).zE = frameEx.zE
    ∧ (TauD.updateParameters frameEx).zE2 = frameEx.zE2
    ∧ (TauD.updateParameters frameEx).wE = frameEx.wE
    ∧ (TauD.updateParameters frameEx).wE2 = frameEx.wE2
    ∧ (TauD.updateParameters frameEx).mask = frameEx.mask
    ∧ (∀ n d, frameEx.mask n d = false →
        (TauD.updateParameters frameEx).yData n d = frameEx.yData n d)
    ∧ (∀ n d, frameEx.mask n d = true →
        (TauD.updateParameters frameEx).yData n d = 0)
    ∧ ((∀ n d, frameEx.mask n d = true → frameEx.yData n d = 0) →
        (TauD.updateParameters frameEx).yData = frameEx.yData) :=
  updateParameters_frame 1 1 1 frameEx

end MOFA2
